import Mathlib

/-
Verification of the websocket collaboration hub of ai-kms
(internal/services/collaboration: SessionManager, Session, WebSocketHandler;
internal/repository/yjs_repo.go).

Go maps are embedded as association lists; a Go `*Session` pointer is
embedded as a numeric identity `sid` carried inside the `Session` record;
a Go buffered channel is embedded as a list of queued values together with
its capacity.  Go map iteration order is nondeterministic; the embedding
iterates rooms in their list order, which covers one admissible schedule.
-/

set_option maxRecDepth 4000

namespace AiKms

/-! ### Association-list embedding of Go maps -/

/-- `m[k]` two-valued lookup: `some v` when the key is present. -/
def alookup [DecidableEq α] : List (α × β) → α → Option β
  | [], _ => none
  | (k, v) :: rest, a => if k = a then some v else alookup rest a

/-- `m[k] = v`: replace the binding for `k`, or append it. -/
def aset [DecidableEq α] : List (α × β) → α → β → List (α × β)
  | [], a, b => [(a, b)]
  | (k, v) :: rest, a, b => if k = a then (a, b) :: rest else (k, v) :: aset rest a b

/-- `delete(m, k)`: remove the binding for `k` (removing every copy, which
coincides with Go map deletion since a Go map binds each key once). -/
def adel [DecidableEq α] : List (α × β) → α → List (α × β)
  | [], _ => []
  | (k, v) :: rest, a => if k = a then adel rest a else (k, v) :: adel rest a

/-- Remove an element from a list-embedded set (every copy, matching
`delete` on a Go `map[*Session]bool` used as a set). -/
def lrem [DecidableEq α] : List α → α → List α
  | [], _ => []
  | x :: rest, a => if x = a then lrem rest a else x :: lrem rest a

theorem alookup_aset [DecidableEq α] (l : List (α × β)) (k k' : α) (v : β) :
    alookup (aset l k v) k' = if k' = k then some v else alookup l k' := by
  induction l with
  | nil =>
    by_cases h : k' = k
    · subst h; simp [aset, alookup]
    · have h2 : ¬k = k' := fun hh => h hh.symm
      simp [aset, alookup, h, h2]
  | cons p rest ih =>
    obtain ⟨pk, pv⟩ := p
    by_cases hpk : pk = k
    · subst hpk
      by_cases h : k' = pk
      · subst h; simp [aset, alookup]
      · have h2 : ¬pk = k' := fun hh => h hh.symm
        simp [aset, alookup, h, h2]
    · by_cases h : pk = k'
      · subst h
        simp [aset, alookup, hpk]
      · simp [aset, alookup, hpk, h, ih]

theorem alookup_adel [DecidableEq α] (l : List (α × β)) (k k' : α) :
    alookup (adel l k) k' = if k' = k then none else alookup l k' := by
  induction l with
  | nil =>
    by_cases h : k' = k <;> simp [adel, alookup, h]
  | cons p rest ih =>
    obtain ⟨pk, pv⟩ := p
    by_cases hpk : pk = k
    · subst hpk
      by_cases h : k' = pk
      · subst h; simp [adel, alookup, ih]
      · have h2 : ¬pk = k' := fun hh => h hh.symm
        simp [adel, alookup, h, h2, ih]
    · by_cases h : pk = k'
      · subst h
        simp [adel, alookup, hpk]
      · simp [adel, alookup, hpk, h, ih]

theorem mem_lrem [DecidableEq α] (l : List α) (a x : α) :
    x ∈ lrem l a ↔ x ∈ l ∧ x ≠ a := by
  induction l with
  | nil => simp [lrem]
  | cons y rest ih =>
    by_cases hy : y = a
    · by_cases hx : x = a
      · rw [hx] at ih
        simp [lrem, hy, hx, ih]
      · simp [lrem, hy, hx, ih]
    · by_cases hx : x = y
      · simp [lrem, hy, hx, ih]
      · simp [lrem, hy, hx, ih]

/-! ### Data model (internal/models/session.go, collaboration package) -/

/-- models.UserInfo. -/
structure UserInfo where
  id : String
  name : String
  color : String
deriving DecidableEq, Repr

/-- models.CursorPosition. -/
structure CursorPosition where
  line : Int
  column : Int
deriving DecidableEq, Repr

/-- models.AwarenessState: ephemeral presence record.  The free-form
`State map[string]interface{}` blob is embedded as an opaque key/value list. -/
structure AwarenessState where
  clientID : Int
  user : Option UserInfo
  cursor : Option CursorPosition
  state : List (String × String)
deriving DecidableEq, Repr

/-- collaboration.Session.  `sid` embeds the `*Session` pointer identity
(room sets and queue ownership are keyed by it); `LastActiveAt` is the
activity timestamp read by the cleanup sweeper, in seconds. -/
structure Session where
  sid : Nat
  DocumentID : String
  UserID : String
  UserName : String
  ClientID : Int
  LastActiveAt : Nat
deriving DecidableEq, Repr

/-- The messages a session's Send channel can carry: opaque update payloads,
and the hub-generated JSON frames (join / leave announcements, awareness
snapshots), kept abstract at the level the hub distinguishes them. -/
inductive WireMsg where
  | upd (data : List Nat)
  | join (userID userName : String)
  | leave (userID userName : String)
  | awarenessSnap (entries : List (Int × AwarenessState))
deriving DecidableEq, Repr

/-- collaboration.BroadcastMessage. -/
structure BroadcastMessage where
  DocumentID : String
  Message : WireMsg
  Sender : Option Session
deriving DecidableEq, Repr

/-- models.YjsUpdate (the fields the hub reads). -/
structure YjsUpdate where
  DocumentID : String
  Update : List Nat
  ClientID : Int
deriving DecidableEq, Repr

/-- Capacity of a session's Send channel: `make(chan []byte, 256)` in
WebSocketHandler.HandleDocumentConnection. -/
def sendQueueCap : Nat := 256

/-- Capacity of the hub's broadcast channel: `make(chan *BroadcastMessage, 256)`
in NewSessionManager. -/
def broadcastChanCap : Nat := 256

/-- The mutable state owned by a SessionManager: the room registry
`documents`, the awareness store, every session's Send buffer (keyed by the
session identity), the log of closed Send channels, and the contents of the
buffered broadcast channel. -/
structure SMState where
  documents : List (String × List Session)
  awareness : List (String × List (Int × AwarenessState))
  queues : List (Nat × List WireMsg)
  closed : List Nat
  broadcastCh : List BroadcastMessage
deriving DecidableEq, Repr

/-- NewSessionManager: empty registry, empty awareness store, empty channel. -/
def initialState : SMState :=
  { documents := [], awareness := [], queues := [], closed := [], broadcastCh := [] }

/-- Current contents of a session's Send buffer. -/
def queueOf (st : SMState) (s : Session) : List WireMsg :=
  (alookup st.queues s.sid).getD []

/-! ### Hub operations (SessionManager, part_009) -/

/-- SessionManager.handleRegister: create the room on first join, add the
session, and push the join announcement onto the buffered broadcast channel.
`none` models the (blocking) case where `sm.broadcast <- ...` finds the
buffered channel full. -/
def handleRegister (st : SMState) (s : Session) : Option SMState :=
  let room := (alookup st.documents s.DocumentID).getD []
  let room' := if s ∈ room then room else room ++ [s]
  let st' := { st with documents := aset st.documents s.DocumentID room' }
  let joinMsg : BroadcastMessage :=
    { DocumentID := s.DocumentID, Message := .join s.UserID s.UserName, Sender := some s }
  if st'.broadcastCh.length < broadcastChanCap then
    some { st' with broadcastCh := st'.broadcastCh ++ [joinMsg] }
  else none

/-- SessionManager.handleUnregister: if the session is still a member of its
document's room, remove it, close its Send channel, drop the room when it
became empty, delete the awareness entry for the session's client id, and
push the leave announcement onto the broadcast channel.  A session already
removed is a no-op.  `none` models `sm.broadcast <- ...` blocking on a full
buffered channel. -/
def handleUnregister (st : SMState) (s : Session) : Option SMState :=
  match alookup st.documents s.DocumentID with
  | none => some st
  | some sessions =>
    if s ∈ sessions then
      let sessions' := lrem sessions s
      let documents' :=
        if sessions' = [] then adel st.documents s.DocumentID
        else aset st.documents s.DocumentID sessions'
      let awareness' :=
        match alookup st.awareness s.DocumentID with
        | none => st.awareness
        | some aware => aset st.awareness s.DocumentID (adel aware s.ClientID)
      let leaveMsg : BroadcastMessage :=
        { DocumentID := s.DocumentID, Message := .leave s.UserID s.UserName, Sender := none }
      if st.broadcastCh.length < broadcastChanCap then
        some
          { st with
            documents := documents'
            awareness := awareness'
            closed := st.closed ++ [s.sid]
            broadcastCh := st.broadcastCh ++ [leaveMsg] }
      else none
    else some st

/-- Outcome of handleBroadcast.  `blocked st slow` embeds the `default`
branch's `sm.unregister <- session`: an unbuffered send whose only receiver
is the event loop executing this very function, so the send never completes
and no member after `slow` in iteration order is reached. -/
inductive BroadcastResult where
  | ok (st : SMState)
  | blocked (st : SMState) (slow : Session)
deriving DecidableEq, Repr

/-- The delivery loop of SessionManager.handleBroadcast over the room's
members: skip the sender, non-blockingly enqueue onto each other member's
Send buffer, and on a full buffer attempt the self-send on `sm.unregister`. -/
def broadcastLoop (st : SMState) (msg : BroadcastMessage) : List Session → BroadcastResult
  | [] => .ok st
  | s :: rest =>
    if msg.Sender = some s then broadcastLoop st msg rest
    else
      let q := queueOf st s
      if q.length < sendQueueCap then
        broadcastLoop
          { st with queues := aset st.queues s.sid (q ++ [msg.Message]) } msg rest
      else
        .blocked st s

/-- SessionManager.handleBroadcast: look the room up and run the delivery
loop (a missing room is the empty set of recipients). -/
def handleBroadcast (st : SMState) (msg : BroadcastMessage) : BroadcastResult :=
  broadcastLoop st msg ((alookup st.documents msg.DocumentID).getD [])

/-- One event-loop turn taking the oldest message off the buffered
broadcast channel and delivering it. -/
def stepBroadcast (st : SMState) : Option BroadcastResult :=
  match st.broadcastCh with
  | [] => none
  | m :: rest => some (handleBroadcast { st with broadcastCh := rest } m)

/-- SessionManager.UpdateAwareness: create the per-document map when absent
and store the state under the client id. -/
def UpdateAwareness (st : SMState) (documentID : String) (clientID : Int)
    (state : AwarenessState) : SMState :=
  let aware := (alookup st.awareness documentID).getD []
  { st with awareness := aset st.awareness documentID (aset aware clientID state) }

/-- SessionManager.GetAwareness as observed by value: the current contents
of the per-document awareness map (`none` = nil map).  The reference
behaviour of the returned Go map is treated separately by `AwHeap`. -/
def GetAwareness (st : SMState) (documentID : String) :
    Option (List (Int × AwarenessState)) :=
  alookup st.awareness documentID

/-- Awareness entry for one (document id, client id) pair. -/
def awLookup (st : SMState) (documentID : String) (clientID : Int) :
    Option AwarenessState :=
  (alookup st.awareness documentID).bind (fun aware => alookup aware clientID)

/-! ### Update log (YjsRepositoryImpl, internal/repository/yjs_repo.go) -/

/-- YjsRepositoryImpl.GetAllUpdates: all stored updates of one document in
`created_at ASC` order; the log list is kept in arrival order, so the
filter preserves that order. -/
def GetAllUpdates (log : List YjsUpdate) (documentID : String) : List YjsUpdate :=
  log.filter (fun u => decide (u.DocumentID = documentID))

/-! ### Initial-state delivery (WebSocketHandler.sendInitialState) -/

/-- The replay loop of sendInitialState: for each historical update, the
non-blocking `select { case session.Send <- update.Update: default: }`
enqueues when the buffer has room and otherwise only logs and moves on. -/
def sendInitialUpdates (st : SMState) (s : Session) : List YjsUpdate → SMState
  | [] => st
  | u :: rest =>
    let q := queueOf st s
    if q.length < sendQueueCap then
      sendInitialUpdates
        { st with queues := aset st.queues s.sid (q ++ [.upd u.Update]) } s rest
    else
      sendInitialUpdates st s rest

/-- WebSocketHandler.sendInitialState: replay all historical updates of the
session's document, then send the awareness snapshot when the per-document
awareness map is non-nil.  That second send has no `default` branch, so a
full buffer blocks: embedded as `none`. -/
def sendInitialState (st : SMState) (log : List YjsUpdate) (s : Session) :
    Option SMState :=
  let st1 := sendInitialUpdates st s (GetAllUpdates log s.DocumentID)
  match GetAwareness st1 s.DocumentID with
  | none => some st1
  | some aware =>
    let q := queueOf st1 s
    if q.length < sendQueueCap then
      some { st1 with queues := aset st1.queues s.sid (q ++ [.awarenessSnap aware]) }
    else none

/-! ### Command sequences against the hub -/

/-- A register or unregister command accepted by the event loop. -/
inductive Cmd where
  | reg (s : Session)
  | unreg (s : Session)
deriving DecidableEq, Repr

/-- Process one command the way the event loop does. -/
def applyCmd (st : SMState) : Cmd → Option SMState
  | .reg s => handleRegister st s
  | .unreg s => handleUnregister st s

/-- Process a command sequence; `none` as soon as one command blocks. -/
def applyCmds (st : SMState) : List Cmd → Option SMState
  | [] => some st
  | c :: cs =>
    match applyCmd st c with
    | some st' => applyCmds st' cs
    | none => none

/-! ### Shape lemmas for the hub operations -/

theorem handleRegister_eq (st : SMState) (s : Session) (st' : SMState)
    (h : handleRegister st s = some st') :
    st.broadcastCh.length < broadcastChanCap ∧
    st' =
      { st with
        documents := aset st.documents s.DocumentID
          (if s ∈ (alookup st.documents s.DocumentID).getD []
            then (alookup st.documents s.DocumentID).getD []
            else (alookup st.documents s.DocumentID).getD [] ++ [s])
        broadcastCh := st.broadcastCh ++
          [{ DocumentID := s.DocumentID, Message := .join s.UserID s.UserName,
             Sender := some s }] } := by
  simp only [handleRegister] at h
  by_cases hch : st.broadcastCh.length < broadcastChanCap
  · simp only [hch, if_true] at h
    injection h with h
    exact ⟨hch, h.symm⟩
  · simp only [hch, if_false] at h
    cases h

/-- The state handleUnregister produces on its active branch. -/
def unregisterEffect (st : SMState) (s : Session) (sessions : List Session) : SMState :=
  { st with
    documents :=
      if lrem sessions s = [] then adel st.documents s.DocumentID
      else aset st.documents s.DocumentID (lrem sessions s)
    awareness :=
      match alookup st.awareness s.DocumentID with
      | none => st.awareness
      | some aware => aset st.awareness s.DocumentID (adel aware s.ClientID)
    closed := st.closed ++ [s.sid]
    broadcastCh := st.broadcastCh ++
      [{ DocumentID := s.DocumentID, Message := .leave s.UserID s.UserName,
         Sender := none }] }

theorem handleUnregister_eq (st : SMState) (s : Session) (st' : SMState)
    (h : handleUnregister st s = some st') :
    (∃ sessions, alookup st.documents s.DocumentID = some sessions ∧ s ∈ sessions ∧
      st.broadcastCh.length < broadcastChanCap ∧ st' = unregisterEffect st s sessions) ∨
    (st' = st ∧ ∀ sessions, alookup st.documents s.DocumentID = some sessions →
      s ∉ sessions) := by
  cases hdoc : alookup st.documents s.DocumentID with
  | none =>
    simp only [handleUnregister, hdoc] at h
    injection h with h
    subst h
    refine Or.inr ⟨rfl, ?_⟩
    intro sessions hs
    cases hs
  | some sessions =>
    by_cases hmem : s ∈ sessions
    · by_cases hch : st.broadcastCh.length < broadcastChanCap
      · simp only [handleUnregister, hdoc, hmem, hch, if_true] at h
        injection h with h
        subst h
        exact Or.inl ⟨sessions, rfl, hmem, hch, rfl⟩
      · simp [handleUnregister, hdoc, hmem, hch] at h
    · simp only [handleUnregister, hdoc] at h
      rw [if_neg hmem] at h
      injection h with h
      subst h
      refine Or.inr ⟨rfl, ?_⟩
      intro sessions' hs
      cases hs
      exact hmem

theorem alookup_documents_unregisterEffect_self (st : SMState) (s : Session)
    (sessions : List Session) :
    alookup (unregisterEffect st s sessions).documents s.DocumentID =
      if lrem sessions s = [] then none else some (lrem sessions s) := by
  by_cases hempty : lrem sessions s = []
  · simp [unregisterEffect, hempty, alookup_adel]
  · simp [unregisterEffect, hempty, alookup_aset]

/-! ### C3: Unregister is idempotent -/

/-- C3: Unregister is idempotent: once `handleUnregister` has completed for a
session, running it again on the resulting state is a no-op that returns the
very same state — same room registry, same awareness store, no additional
queue close and no additional leave announcement. -/
theorem unregister_idempotent (st : SMState) (s : Session) (st' : SMState)
    (h : handleUnregister st s = some st') :
    handleUnregister st' s = some st' := by
  rcases handleUnregister_eq st s st' h with
    ⟨sessions, hdoc, hmem, hch, heff⟩ | ⟨heq, habs⟩
  · subst heff
    have hnot : s ∉ lrem sessions s := by
      intro hs
      exact ((mem_lrem sessions s s).mp hs).2 rfl
    by_cases hempty : lrem sessions s = []
    · simp only [handleUnregister, alookup_documents_unregisterEffect_self, hempty,
        if_true]
    · simp only [handleUnregister, alookup_documents_unregisterEffect_self, hempty,
        if_false]
      rw [if_neg hnot]
  · subst heq
    cases hdoc : alookup st'.documents s.DocumentID with
    | none => simp only [handleUnregister, hdoc]
    | some sessions =>
      simp only [handleUnregister, hdoc]
      rw [if_neg (habs sessions hdoc)]

/-- Concrete session used by the witnesses. -/
def sessA : Session := ⟨1, "doc1", "uA", "A", 11, 0⟩

/-- Concrete session used by the witnesses. -/
def sessB : Session := ⟨2, "doc1", "uB", "B", 12, 0⟩

/-- Concrete session used by the witnesses. -/
def sessC : Session := ⟨3, "doc1", "uC", "C", 13, 0⟩

/-- A concrete state with sessA registered and an awareness entry for it. -/
def stA : SMState :=
  { documents := [("doc1", [sessA])]
    awareness := [("doc1", [(11, ⟨11, none, none, []⟩)])]
    queues := [], closed := [], broadcastCh := [] }

/-- The state handleUnregister produces from `stA`. -/
def stA' : SMState :=
  { documents := []
    awareness := [("doc1", [])]
    queues := [], closed := [1]
    broadcastCh := [{ DocumentID := "doc1", Message := .leave "uA" "A",
                      Sender := none }] }

/-- Witness for C3 at a concrete registered session. -/
theorem unregister_idempotent_witness :
    handleUnregister stA sessA = some stA' ∧
    handleUnregister stA' sessA = some stA' :=
  ⟨by decide, unregister_idempotent stA sessA stA' (by decide)⟩

/-! ### C4: after Unregister a session is in no room and has no awareness entry -/

/-- Every room member's DocumentID field names the room it sits in (a session
joins only the room of its own document). -/
def RoomsConsistent (st : SMState) : Prop :=
  ∀ d, ∀ t ∈ (alookup st.documents d).getD [], t.DocumentID = d

theorem roomsConsistent_handleRegister (st : SMState) (s : Session) (st' : SMState)
    (hinv : RoomsConsistent st) (h : handleRegister st s = some st') :
    RoomsConsistent st' := by
  obtain ⟨-, rfl⟩ := handleRegister_eq st s st' h
  intro d t ht
  simp only [alookup_aset] at ht
  by_cases hd : d = s.DocumentID
  · rw [if_pos hd] at ht
    simp only [Option.getD_some] at ht
    by_cases hmem : s ∈ (alookup st.documents s.DocumentID).getD []
    · rw [if_pos hmem] at ht
      exact hd ▸ hinv s.DocumentID t ht
    · rw [if_neg hmem] at ht
      rcases List.mem_append.mp ht with ht | ht
      · exact hd ▸ hinv s.DocumentID t ht
      · rcases List.mem_singleton.mp ht with rfl
        exact hd ▸ rfl
  · rw [if_neg hd] at ht
    exact hinv d t ht

theorem roomsConsistent_handleUnregister (st : SMState) (s : Session) (st' : SMState)
    (hinv : RoomsConsistent st) (h : handleUnregister st s = some st') :
    RoomsConsistent st' := by
  rcases handleUnregister_eq st s st' h with
    ⟨sessions, hdoc, hmem, hch, heff⟩ | ⟨rfl, -⟩
  · subst heff
    intro d t ht
    by_cases hempty : lrem sessions s = []
    · simp only [unregisterEffect, hempty, if_true, alookup_adel] at ht
      by_cases hd : d = s.DocumentID
      · rw [if_pos hd] at ht
        cases ht
      · rw [if_neg hd] at ht
        exact hinv d t ht
    · simp only [unregisterEffect, hempty, if_false, alookup_aset] at ht
      by_cases hd : d = s.DocumentID
      · rw [if_pos hd] at ht
        simp only [Option.getD_some] at ht
        have hts : t ∈ sessions := ((mem_lrem sessions s t).mp ht).1
        rw [hd]
        exact hinv s.DocumentID t (by rw [hdoc]; exact hts)
      · rw [if_neg hd] at ht
        exact hinv d t ht
  · exact hinv

theorem roomsConsistent_applyCmds (cmds : List Cmd) :
    ∀ st st', RoomsConsistent st → applyCmds st cmds = some st' →
      RoomsConsistent st' := by
  induction cmds with
  | nil =>
    intro st st' hinv h
    injection h with h
    exact h ▸ hinv
  | cons c cs ih =>
    intro st st' hinv h
    simp only [applyCmds] at h
    cases hc : applyCmd st c with
    | none => rw [hc] at h; cases h
    | some st1 =>
      rw [hc] at h
      have h1 : RoomsConsistent st1 := by
        cases c with
        | reg s => exact roomsConsistent_handleRegister st s st1 hinv hc
        | unreg s => exact roomsConsistent_handleUnregister st s st1 hinv hc
      exact ih st1 st' h1 h

/-- C4: in any hub state reached by register/unregister commands, once
`handleUnregister` completes for a registered session, that session is a
member of no room at all, and the awareness entry for its client id in its
document is absent from the GetAwareness view. -/
theorem unregister_clears_membership_and_awareness
    (cmds : List Cmd) (st : SMState) (s : Session) (st' : SMState)
    (hreach : applyCmds initialState cmds = some st)
    (hreg : s ∈ (alookup st.documents s.DocumentID).getD [])
    (hun : handleUnregister st s = some st') :
    (∀ d, s ∉ (alookup st'.documents d).getD []) ∧
    alookup ((GetAwareness st' s.DocumentID).getD []) s.ClientID = none := by
  have hcons : RoomsConsistent st := by
    refine roomsConsistent_applyCmds cmds initialState st ?_ hreach
    intro d t ht
    cases ht
  rcases handleUnregister_eq st s st' hun with
    ⟨sessions, hdoc, hmem, hch, heff⟩ | ⟨-, habs⟩
  · subst heff
    constructor
    · intro d hd
      by_cases hdd : d = s.DocumentID
      · subst hdd
        rw [alookup_documents_unregisterEffect_self] at hd
        by_cases hempty : lrem sessions s = []
        · rw [if_pos hempty] at hd
          cases hd
        · rw [if_neg hempty] at hd
          simp only [Option.getD_some] at hd
          exact ((mem_lrem sessions s s).mp hd).2 rfl
      · have hun : alookup (unregisterEffect st s sessions).documents d =
            alookup st.documents d := by
          simp only [unregisterEffect]
          by_cases hempty : lrem sessions s = []
          · rw [if_pos hempty, alookup_adel, if_neg hdd]
          · rw [if_neg hempty, alookup_aset, if_neg hdd]
        rw [hun] at hd
        exact hdd (hcons d s hd).symm
    · simp only [GetAwareness, unregisterEffect]
      cases haw : alookup st.awareness s.DocumentID with
      | none => simp [haw, alookup]
      | some aware => simp [haw, alookup_aset, alookup_adel]
  · exfalso
    cases hdoc : alookup st.documents s.DocumentID with
    | none =>
      rw [hdoc] at hreg
      simp at hreg
    | some sessions =>
      rw [hdoc] at hreg
      exact habs sessions hdoc hreg

/-- The state after registering sessA then sessB on doc1. -/
def stAB : SMState :=
  { documents := [("doc1", [sessA, sessB])]
    awareness := []
    queues := [], closed := []
    broadcastCh :=
      [{ DocumentID := "doc1", Message := .join "uA" "A", Sender := some sessA },
       { DocumentID := "doc1", Message := .join "uB" "B", Sender := some sessB }] }

/-- The state after then unregistering sessA. -/
def stAB' : SMState :=
  { documents := [("doc1", [sessB])]
    awareness := []
    queues := [], closed := [1]
    broadcastCh :=
      [{ DocumentID := "doc1", Message := .join "uA" "A", Sender := some sessA },
       { DocumentID := "doc1", Message := .join "uB" "B", Sender := some sessB },
       { DocumentID := "doc1", Message := .leave "uA" "A", Sender := none }] }

/-- Witness for C4: register A and B, then unregister A. -/
theorem unregister_clears_membership_and_awareness_witness :
    applyCmds initialState [.reg sessA, .reg sessB] = some stAB ∧
    sessA ∈ (alookup stAB.documents sessA.DocumentID).getD [] ∧
    handleUnregister stAB sessA = some stAB' ∧
    ((∀ d, sessA ∉ (alookup stAB'.documents d).getD []) ∧
      alookup ((GetAwareness stAB' sessA.DocumentID).getD []) sessA.ClientID = none) :=
  ⟨by decide, by decide, by decide,
    unregister_clears_membership_and_awareness [.reg sessA, .reg sessB] stAB sessA stAB'
      (by decide) (by decide) (by decide)⟩

/-! ### C5: a room is registered iff it has a member -/

/-- The room registry never holds an empty member set. -/
def RegistryNonempty (st : SMState) : Prop :=
  ∀ d m, alookup st.documents d = some m → m ≠ []

theorem registryNonempty_handleRegister (st : SMState) (s : Session) (st' : SMState)
    (hinv : RegistryNonempty st) (h : handleRegister st s = some st') :
    RegistryNonempty st' := by
  obtain ⟨-, rfl⟩ := handleRegister_eq st s st' h
  intro d m hm
  simp only [alookup_aset] at hm
  by_cases hd : d = s.DocumentID
  · rw [if_pos hd] at hm
    injection hm with hm
    subst hm
    by_cases hmem : s ∈ (alookup st.documents s.DocumentID).getD []
    · rw [if_pos hmem]
      intro hnil
      rw [hnil] at hmem
      cases hmem
    · rw [if_neg hmem]
      simp
  · rw [if_neg hd] at hm
    exact hinv d m hm

theorem registryNonempty_handleUnregister (st : SMState) (s : Session) (st' : SMState)
    (hinv : RegistryNonempty st) (h : handleUnregister st s = some st') :
    RegistryNonempty st' := by
  rcases handleUnregister_eq st s st' h with
    ⟨sessions, hdoc, hmem, hch, heff⟩ | ⟨rfl, -⟩
  · subst heff
    intro d m hm
    by_cases hempty : lrem sessions s = []
    · simp only [unregisterEffect, hempty, if_true, alookup_adel] at hm
      by_cases hd : d = s.DocumentID
      · rw [if_pos hd] at hm
        cases hm
      · rw [if_neg hd] at hm
        exact hinv d m hm
    · simp only [unregisterEffect, hempty, if_false, alookup_aset] at hm
      by_cases hd : d = s.DocumentID
      · rw [if_pos hd] at hm
        injection hm with hm
        subst hm
        exact hempty
      · rw [if_neg hd] at hm
        exact hinv d m hm
  · exact hinv

theorem registryNonempty_applyCmds (cmds : List Cmd) :
    ∀ st st', RegistryNonempty st → applyCmds st cmds = some st' →
      RegistryNonempty st' := by
  induction cmds with
  | nil =>
    intro st st' hinv h
    injection h with h
    exact h ▸ hinv
  | cons c cs ih =>
    intro st st' hinv h
    simp only [applyCmds] at h
    cases hc : applyCmd st c with
    | none => rw [hc] at h; cases h
    | some st1 =>
      rw [hc] at h
      have h1 : RegistryNonempty st1 := by
        cases c with
        | reg s => exact registryNonempty_handleRegister st s st1 hinv hc
        | unreg s => exact registryNonempty_handleUnregister st s st1 hinv hc
      exact ih st1 st' h1 h

/-- C5: after every completed sequence of register and unregister commands
starting from the fresh manager, a document id is a key of the room registry
iff its member set is non-empty: Register creates the room on first join and
Unregister deletes the registry entry exactly when the last member leaves. -/
theorem room_registry_iff_nonempty (cmds : List Cmd) (st : SMState)
    (h : applyCmds initialState cmds = some st) (d : String) :
    (alookup st.documents d).isSome ↔ (alookup st.documents d).getD [] ≠ [] := by
  have hinv : RegistryNonempty st := by
    refine registryNonempty_applyCmds cmds initialState st ?_ h
    intro d m hm
    cases hm
  cases hd : alookup st.documents d with
  | none => simp
  | some m =>
    simp only [Option.isSome_some, Option.getD_some]
    exact ⟨fun _ => hinv d m hd, fun _ => trivial⟩

/-- Witness for C5: register A and B, unregister A, on document doc1. -/
theorem room_registry_iff_nonempty_witness :
    ∃ st, applyCmds initialState [.reg sessA, .reg sessB, .unreg sessA] = some st ∧
      ((alookup st.documents "doc1").isSome ↔
        (alookup st.documents "doc1").getD [] ≠ []) := by
  cases hst : applyCmds initialState [.reg sessA, .reg sessB, .unreg sessA] with
  | none => exact absurd hst (by decide)
  | some st =>
    exact ⟨st, rfl, room_registry_iff_nonempty _ st hst "doc1"⟩

/-! ### C9: initial-state replay silently drops updates that do not fit -/

/-- C9: the replay loop of sendInitialState always runs to completion and
returns no error: it appends onto the new session's Send buffer exactly the
longest prefix of the historical updates that fits under the buffer capacity,
silently dropping the rest (they are only logged), and it touches no other
manager state — so the initial sync can be silently incomplete. -/
theorem sendInitialUpdates_silent_truncation (st : SMState) (s : Session)
    (us : List YjsUpdate) :
    queueOf (sendInitialUpdates st s us) s =
      queueOf st s ++
        (us.map (fun u => WireMsg.upd u.Update)).take
          (sendQueueCap - (queueOf st s).length) ∧
    (sendInitialUpdates st s us).documents = st.documents ∧
    (sendInitialUpdates st s us).awareness = st.awareness ∧
    (sendInitialUpdates st s us).broadcastCh = st.broadcastCh ∧
    (sendInitialUpdates st s us).closed = st.closed := by
  induction us generalizing st with
  | nil => simp [sendInitialUpdates]
  | cons u rest ih =>
    by_cases hlen : (queueOf st s).length < sendQueueCap
    · have hq1 : queueOf
          { st with queues := aset st.queues s.sid (queueOf st s ++ [.upd u.Update]) } s =
          queueOf st s ++ [.upd u.Update] := by
        simp [queueOf, alookup_aset]
      obtain ⟨ihq, ihd, iha, ihb, ihc⟩ :=
        ih { st with queues := aset st.queues s.sid (queueOf st s ++ [.upd u.Update]) }
      refine ⟨?_, ?_, ?_, ?_, ?_⟩ <;>
        simp only [sendInitialUpdates, hlen, if_true]
      · rw [ihq, hq1]
        have harith : sendQueueCap - (queueOf st s).length =
            (sendQueueCap - ((queueOf st s).length + 1)) + 1 := by omega
        simp only [List.length_append, List.length_singleton, List.map_cons, harith,
          List.take_succ_cons, List.append_assoc, List.singleton_append]
      · exact ihd
      · exact iha
      · exact ihb
      · exact ihc
    · obtain ⟨ihq, ihd, iha, ihb, ihc⟩ := ih st
      have hz : sendQueueCap - (queueOf st s).length = 0 := by omega
      refine ⟨?_, ?_, ?_, ?_, ?_⟩ <;>
        simp only [sendInitialUpdates, hlen, if_false]
      · rw [ihq, hz]
        simp
      · exact ihd
      · exact iha
      · exact ihb
      · exact ihc

/-! ### C1: broadcast reaches exactly the room minus the sender -/

theorem queueOf_update_self (st : SMState) (q : List WireMsg) (s : Session) :
    queueOf { st with queues := aset st.queues s.sid q } s = q := by
  simp [queueOf, alookup_aset]

theorem queueOf_update_ne (st : SMState) (q : List WireMsg) (i : Nat) (u : Session)
    (h : u.sid ≠ i) :
    queueOf { st with queues := aset st.queues i q } u = queueOf st u := by
  simp [queueOf, alookup_aset, h]

theorem broadcastLoop_ok (msg : BroadcastMessage) (s : Session)
    (hsender : msg.Sender = some s) :
    ∀ (l : List Session) (st : SMState),
      (l.map Session.sid).Nodup →
      (∀ t ∈ l, t ≠ s → t.sid ≠ s.sid) →
      (∀ t ∈ l, t ≠ s → (queueOf st t).length < sendQueueCap) →
      ∃ st', broadcastLoop st msg l = .ok st' ∧
        (∀ t ∈ l, t ≠ s → queueOf st' t = queueOf st t ++ [msg.Message]) ∧
        (∀ i : Nat, (∀ t ∈ l, t ≠ s → t.sid ≠ i) →
          alookup st'.queues i = alookup st.queues i) ∧
        st'.documents = st.documents ∧ st'.awareness = st.awareness ∧
        st'.broadcastCh = st.broadcastCh ∧ st'.closed = st.closed := by
  intro l
  induction l with
  | nil =>
    intro st _ _ _
    exact ⟨st, rfl, by simp, fun i _ => rfl, rfl, rfl, rfl, rfl⟩
  | cons t rest ih =>
    intro st hnodup hsid hcap
    by_cases hts : t = s
    · subst hts
      have hskip : msg.Sender = some t := hsender
      obtain ⟨st', hok, hdel, hframe, hd, ha, hb, hc⟩ :=
        ih st (by simpa using hnodup.of_cons)
          (fun u hu hus => hsid u (List.mem_cons_of_mem t hu) hus)
          (fun u hu hus => hcap u (List.mem_cons_of_mem t hu) hus)
      refine ⟨st', ?_, ?_, ?_, hd, ha, hb, hc⟩
      · simp only [broadcastLoop, hskip, if_pos]
        exact hok
      · intro u hu hus
        rcases List.mem_cons.mp hu with rfl | hu
        · exact absurd rfl hus
        · exact hdel u hu hus
      · intro i hi
        exact hframe i (fun u hu hus => hi u (List.mem_cons_of_mem t hu) hus)
    · have hne : ¬msg.Sender = some t := by
        rw [hsender]
        intro hh
        injection hh with hh
        exact hts hh.symm
      have hcapt : (queueOf st t).length < sendQueueCap :=
        hcap t (List.mem_cons_self t rest) hts
      have hsidrest : t.sid ∉ rest.map Session.sid := by
        have := hnodup
        simp only [List.map_cons, List.nodup_cons] at this
        exact this.1
      have hq1 : ∀ u ∈ rest,
          queueOf { st with queues := aset st.queues t.sid (queueOf st t ++ [msg.Message]) } u = queueOf st u := by
        intro u hu
        refine queueOf_update_ne st _ t.sid u ?_
        intro hh
        exact hsidrest (hh ▸ List.mem_map_of_mem Session.sid hu)
      obtain ⟨st', hok, hdel, hframe, hd, ha, hb, hc⟩ :=
        ih { st with queues := aset st.queues t.sid (queueOf st t ++ [msg.Message]) }
          (by simpa using hnodup.of_cons)
          (fun u hu hus => hsid u (List.mem_cons_of_mem t hu) hus)
          (fun u hu hus => by rw [hq1 u hu]; exact hcap u (List.mem_cons_of_mem t hu) hus)
      refine ⟨st', ?_, ?_, ?_, hd, ha, hb, hc⟩
      · simp only [broadcastLoop, hne, if_false, if_pos hcapt]
        exact hok
      · intro u hu hus
        rcases List.mem_cons.mp hu with rfl | hu
        · have hfr : alookup st'.queues u.sid =
              alookup (aset st.queues u.sid (queueOf st u ++ [msg.Message])) u.sid := by
            refine hframe u.sid ?_
            intro v hv hvs hveq
            exact hsidrest (hveq ▸ List.mem_map_of_mem Session.sid hv)
          simp [queueOf, hfr, alookup_aset]
        · rw [hdel u hu hus, hq1 u hu]
      · intro i hi
        have hti : t.sid ≠ i := hi t (List.mem_cons_self t rest) hts
        have hit : ¬i = t.sid := fun hh => hti hh.symm
        rw [hframe i (fun u hu hus => hi u (List.mem_cons_of_mem t hu) hus)]
        simp [alookup_aset, hit]

/-- C1: a broadcast on a room with member set `room` and excluded sender `s`
(a member) appends the payload onto the Send buffer of exactly the members
other than `s`: never onto `s`'s buffer and never onto any buffer not owned
by a member of that room (in particular none of another document's
sessions), provided no recipient's buffer is at capacity. -/
theorem broadcast_delivers_exactly_room_minus_sender
    (st : SMState) (msg : BroadcastMessage) (s : Session) (room : List Session)
    (hroom : alookup st.documents msg.DocumentID = some room)
    (hsender : msg.Sender = some s)
    (hnodup : (room.map Session.sid).Nodup)
    (hs : s ∈ room)
    (hcap : ∀ t ∈ room, t ≠ s → (queueOf st t).length < sendQueueCap) :
    ∃ st', handleBroadcast st msg = .ok st' ∧
      (∀ t ∈ room, t ≠ s → queueOf st' t = queueOf st t ++ [msg.Message]) ∧
      queueOf st' s = queueOf st s ∧
      (∀ i : Nat, i ∉ room.map Session.sid →
        alookup st'.queues i = alookup st.queues i) := by
  have hsid : ∀ t ∈ room, t ≠ s → t.sid ≠ s.sid := by
    intro t ht hts hh
    exact hts (List.inj_on_of_nodup_map hnodup ht hs hh)
  obtain ⟨st', hok, hdel, hframe, -, -, -, -⟩ :=
    broadcastLoop_ok msg s hsender room st hnodup hsid hcap
  refine ⟨st', ?_, hdel, ?_, ?_⟩
  · simp only [handleBroadcast, hroom, Option.getD_some]
    exact hok
  · have := hframe s.sid (fun t ht hts => hsid t ht hts)
    simp only [queueOf, this]
  · intro i hi
    refine hframe i ?_
    intro t ht _ hh
    exact hi (hh ▸ List.mem_map_of_mem Session.sid ht)

/-- A concrete three-member room on doc1 used by the C1 witness. -/
def stABC : SMState :=
  { documents := [("doc1", [sessA, sessB, sessC])]
    awareness := []
    queues := [], closed := [], broadcastCh := [] }

/-- Witness for C1: a payload broadcast by sessA in the room of A, B, C. -/
theorem broadcast_delivers_exactly_room_minus_sender_witness :
    ∃ st', handleBroadcast stABC ⟨"doc1", .upd [7], some sessA⟩ = .ok st' ∧
      (∀ t ∈ [sessA, sessB, sessC], t ≠ sessA →
        queueOf st' t = queueOf stABC t ++ [WireMsg.upd [7]]) ∧
      queueOf st' sessA = queueOf stABC sessA ∧
      (∀ i : Nat, i ∉ [sessA, sessB, sessC].map Session.sid →
        alookup st'.queues i = alookup stABC.queues i) :=
  broadcast_delivers_exactly_room_minus_sender stABC ⟨"doc1", .upd [7], some sessA⟩
    sessA [sessA, sessB, sessC] (by decide) rfl (by decide) (by decide)
    (by decide)

/-! ### C6: GetAwareness returns the live inner map, not a snapshot

A Go `map[int]*models.AwarenessState` value is a reference.  `AwHeap` makes
the references of the awareness store explicit: `refs` is the heap of
allocated inner maps, and `awareness` maps a document id to the reference
held in `sm.awareness[documentID]`.  The inner map of a document is
allocated once (when nil) and thereafter mutated in place, exactly as in
UpdateAwareness / handleUnregister. -/

structure AwHeap where
  refs : List (Nat × List (Int × AwarenessState))
  nextRef : Nat
  awareness : List (String × Nat)
deriving DecidableEq, Repr

/-- Read an inner awareness map through its reference. -/
def derefAw (h : AwHeap) (r : Nat) : List (Int × AwarenessState) :=
  (alookup h.refs r).getD []

/-- The store a fresh SessionManager starts with. -/
def emptyAwHeap : AwHeap := { refs := [], nextRef := 0, awareness := [] }

/-- SessionManager.UpdateAwareness at the reference level: allocate the inner
map when `sm.awareness[documentID]` is nil, then perform
`sm.awareness[documentID][clientID] = state` by mutating the inner map in
place through its reference. -/
def updateAwarenessRef (h : AwHeap) (documentID : String) (clientID : Int)
    (state : AwarenessState) : AwHeap :=
  match alookup h.awareness documentID with
  | some r =>
    { h with refs := aset h.refs r (aset (derefAw h r) clientID state) }
  | none =>
    { refs := aset h.refs h.nextRef (aset [] clientID state)
      nextRef := h.nextRef + 1
      awareness := aset h.awareness documentID h.nextRef }

/-- SessionManager.GetAwareness at the reference level:
`return sm.awareness[documentID]` hands back the stored reference itself
(`none` = nil map), with no copy being taken. -/
def getAwarenessRef (h : AwHeap) (documentID : String) : Option Nat :=
  alookup h.awareness documentID

/-- The awareness heap after one update for client 1 on doc1. -/
def awHeap1 : AwHeap := updateAwarenessRef emptyAwHeap "doc1" 1 ⟨1, none, none, []⟩

/-- Counterexample to C6 as stated: GetAwareness does not return a snapshot.
After `UpdateAwareness("doc1", 1, ...)`, GetAwareness("doc1") returns the
inner map reference; a subsequent `UpdateAwareness("doc1", 2, ...)` changes
the contents observed through that very reference, so the value previously
returned is affected by the later update. -/
theorem getAwareness_not_snapshot :
    getAwarenessRef awHeap1 "doc1" = some 0 ∧
    derefAw (updateAwarenessRef awHeap1 "doc1" 2 ⟨2, none, none, []⟩) 0 ≠
      derefAw awHeap1 0 := by
  refine ⟨by decide, by decide⟩

/-- C6 amended: GetAwareness returns the live reference of the document's
inner awareness map (`none` for nil), never a copy: any later
UpdateAwareness on the same document is visible through the previously
returned reference. -/
theorem getAwareness_returns_live_reference (h : AwHeap) (doc : String)
    (cid : Int) (aw : AwarenessState) (r : Nat)
    (hr : getAwarenessRef h doc = some r) :
    derefAw (updateAwarenessRef h doc cid aw) r = aset (derefAw h r) cid aw := by
  simp only [getAwarenessRef] at hr
  simp only [updateAwarenessRef, hr, derefAw]
  simp [alookup_aset]

/-- Witness for the amended C6 on the concrete one-entry heap. -/
theorem getAwareness_returns_live_reference_witness :
    getAwarenessRef awHeap1 "doc1" = some 0 ∧
    derefAw (updateAwarenessRef awHeap1 "doc1" 2 ⟨2, none, none, []⟩) 0 =
      aset (derefAw awHeap1 0) 2 ⟨2, none, none, []⟩ :=
  ⟨by decide,
    getAwareness_returns_live_reference awHeap1 "doc1" 2 ⟨2, none, none, []⟩ 0
      (by decide)⟩

/-! ### C10: awareness entries are keyed by (document id, client id) only -/

theorem awLookup_handleUnregister_other (st : SMState) (s : Session)
    (st' : SMState) (doc : String) (cid : Int)
    (h : handleUnregister st s = some st')
    (hne : ¬(s.DocumentID = doc ∧ s.ClientID = cid)) :
    awLookup st' doc cid = awLookup st doc cid := by
  rcases handleUnregister_eq st s st' h with
    ⟨sessions, hdoc, hmem, hch, heff⟩ | ⟨rfl, -⟩
  · subst heff
    simp only [awLookup, unregisterEffect]
    cases haw : alookup st.awareness s.DocumentID with
    | none => rfl
    | some aware =>
      by_cases hd : doc = s.DocumentID
      · subst hd
        have hcid : ¬cid = s.ClientID := by
          intro hh
          exact hne ⟨rfl, hh.symm⟩
        simp [alookup_aset, alookup_adel, haw, hcid]
      · simp [alookup_aset, hd]
  · rfl

/-- C10: the awareness store is keyed by (document id, client id) with no
tie to the session.  (a) When two distinct sessions of the same room carry
the same client id, unregistering one also deletes the awareness entry of
the other, still registered, session.  (b) UpdateAwareness accepts any
(document id, client id) pair with no registered session, and the entry it
creates survives every completed register/unregister sequence in which no
unregistered session carries exactly that document id and client id. -/
theorem awareness_keyed_by_doc_and_client :
    (∀ (st : SMState) (s1 s2 : Session) (sessions : List Session) (st' : SMState),
      alookup st.documents s1.DocumentID = some sessions →
      s1 ∈ sessions → s2 ∈ sessions → s2 ≠ s1 →
      s2.DocumentID = s1.DocumentID → s2.ClientID = s1.ClientID →
      handleUnregister st s1 = some st' →
      s2 ∈ (alookup st'.documents s2.DocumentID).getD [] ∧
      awLookup st' s2.DocumentID s2.ClientID = none) ∧
    (∀ (st : SMState) (doc : String) (cid : Int) (aw : AwarenessState),
      awLookup (UpdateAwareness st doc cid aw) doc cid = some aw) ∧
    (∀ (cmds : List Cmd) (st : SMState) (doc : String) (cid : Int)
        (aw : AwarenessState) (st' : SMState),
      awLookup st doc cid = some aw →
      (∀ s, Cmd.unreg s ∈ cmds → ¬(s.DocumentID = doc ∧ s.ClientID = cid)) →
      applyCmds st cmds = some st' →
      awLookup st' doc cid = some aw) := by
  refine ⟨?_, ?_, ?_⟩
  · intro st s1 s2 sessions st' hdoc hm1 hm2 hne hsamedoc hsamecid hun
    rcases handleUnregister_eq st s1 st' hun with
      ⟨sessions2, hdoc2, hmem2, hch2, heff⟩ | ⟨-, habs⟩
    · rw [hdoc] at hdoc2
      injection hdoc2 with hdoc2
      subst hdoc2
      subst heff
      constructor
      · rw [hsamedoc, alookup_documents_unregisterEffect_self]
        have hs2 : s2 ∈ lrem sessions s1 := (mem_lrem sessions s1 s2).mpr ⟨hm2, hne⟩
        have hnonempty : ¬lrem sessions s1 = [] := by
          intro hh
          rw [hh] at hs2
          cases hs2
        rw [if_neg hnonempty]
        exact hs2
      · rw [hsamedoc, hsamecid]
        simp only [awLookup, unregisterEffect]
        cases haw : alookup st.awareness s1.DocumentID with
        | none => simp [haw]
        | some aware => simp [haw, alookup_aset, alookup_adel]
    · exact absurd hm1 (habs sessions hdoc)
  · intro st doc cid aw
    simp [awLookup, UpdateAwareness, alookup_aset]
  · intro cmds
    induction cmds with
    | nil =>
      intro st doc cid aw st' hlook _ happ
      injection happ with happ
      exact happ ▸ hlook
    | cons c cs ih =>
      intro st doc cid aw st' hlook hprot happ
      simp only [applyCmds] at happ
      cases hc : applyCmd st c with
      | none => rw [hc] at happ; cases happ
      | some st1 =>
        rw [hc] at happ
        have h1 : awLookup st1 doc cid = some aw := by
          cases c with
          | reg s =>
            obtain ⟨-, rfl⟩ := handleRegister_eq st s st1 hc
            exact hlook
          | unreg s =>
            rw [awLookup_handleUnregister_other st s st1 doc cid hc
              (hprot s (List.mem_cons_self _ _))]
            exact hlook
        exact ih st1 doc cid aw st' h1
          (fun s hs => hprot s (List.mem_cons_of_mem c hs)) happ

/-- A session sharing sessA's client id 11 on doc1. -/
def sessD : Session := ⟨4, "doc1", "uD", "D", 11, 0⟩

/-- A state with sessA and sessD both registered on doc1, both with client
id 11, and an awareness entry for client 11. -/
def stD : SMState :=
  { documents := [("doc1", [sessA, sessD])]
    awareness := [("doc1", [(11, ⟨11, none, none, []⟩)])]
    queues := [], closed := [], broadcastCh := [] }

/-- The state handleUnregister produces for sessA from `stD`. -/
def stD' : SMState :=
  { documents := [("doc1", [sessD])]
    awareness := [("doc1", [])]
    queues := [], closed := [1]
    broadcastCh := [{ DocumentID := "doc1", Message := .leave "uA" "A",
                      Sender := none }] }

/-- The awareness entry used by the C10 witness. -/
def awX : AwarenessState := ⟨42, none, none, []⟩

/-- Witness for C10: unregistering sessA wipes still-live sessD's awareness
entry; an entry created for an unregistered (doc, client) pair survives a
register/unregister pair of an unrelated session. -/
theorem awareness_keyed_by_doc_and_client_witness :
    (sessD ∈ (alookup stD'.documents sessD.DocumentID).getD [] ∧
      awLookup stD' sessD.DocumentID sessD.ClientID = none) ∧
    awLookup (UpdateAwareness initialState "docX" 42 awX) "docX" 42 = some awX ∧
    awLookup
      { documents := []
        awareness := [("docX", [(42, awX)])]
        queues := [], closed := [2]
        broadcastCh :=
          [{ DocumentID := "doc1", Message := .join "uB" "B", Sender := some sessB },
           { DocumentID := "doc1", Message := .leave "uB" "B", Sender := none }] }
      "docX" 42 = some awX :=
  ⟨awareness_keyed_by_doc_and_client.1 stD sessA sessD [sessA, sessD] stD'
      (by decide) (by decide) (by decide) (by decide) (by decide) (by decide)
      (by decide),
   awareness_keyed_by_doc_and_client.2.1 initialState "docX" 42 awX,
   awareness_keyed_by_doc_and_client.2.2 [.reg sessB, .unreg sessB]
      (UpdateAwareness initialState "docX" 42 awX) "docX" 42 awX
      { documents := []
        awareness := [("docX", [(42, awX)])]
        queues := [], closed := [2]
        broadcastCh :=
          [{ DocumentID := "doc1", Message := .join "uB" "B", Sender := some sessB },
           { DocumentID := "doc1", Message := .leave "uB" "B", Sender := none }] }
      (by decide)
      (by
        intro s hs
        simp only [List.mem_cons, List.mem_singleton] at hs
        rcases hs with hs | hs
        · cases hs
        · rcases hs with hs | hs
          · injection hs with hs
            subst hs
            decide
          · cases hs)
      (by decide)⟩

/-! ### C7: a new member's initial sync replays the log in order, and the
room is told about the join -/

theorem sendInitialUpdates_queues_ne (s : Session) (us : List YjsUpdate) :
    ∀ (st : SMState) (i : Nat), i ≠ s.sid →
      alookup (sendInitialUpdates st s us).queues i = alookup st.queues i := by
  induction us with
  | nil => intro st i _; rfl
  | cons u rest ih =>
    intro st i hi
    by_cases hlen : (queueOf st s).length < sendQueueCap
    · simp only [sendInitialUpdates, hlen, if_true]
      rw [ih _ i hi]
      simp [alookup_aset, hi]
    · simp only [sendInitialUpdates, hlen, if_false]
      exact ih st i hi

theorem sendInitialUpdates_rest (s : Session) (us : List YjsUpdate) :
    ∀ st : SMState,
      (sendInitialUpdates st s us).documents = st.documents ∧
      (sendInitialUpdates st s us).awareness = st.awareness ∧
      (sendInitialUpdates st s us).broadcastCh = st.broadcastCh := by
  induction us with
  | nil => intro st; exact ⟨rfl, rfl, rfl⟩
  | cons u rest ih =>
    intro st
    by_cases hlen : (queueOf st s).length < sendQueueCap
    · simp only [sendInitialUpdates, hlen, if_true]
      exact ih _
    · simp only [sendInitialUpdates, hlen, if_false]
      exact ih st

theorem sendInitialUpdates_queue_fits (s : Session) (us : List YjsUpdate) :
    ∀ st : SMState, (queueOf st s).length + us.length ≤ sendQueueCap →
      queueOf (sendInitialUpdates st s us) s =
        queueOf st s ++ us.map (fun u => WireMsg.upd u.Update) := by
  induction us with
  | nil => intro st _; simp [sendInitialUpdates]
  | cons u rest ih =>
    intro st hfit
    have hlen : (queueOf st s).length < sendQueueCap := by
      simp only [List.length_cons] at hfit
      omega
    simp only [sendInitialUpdates, hlen, if_true]
    have hq1 : queueOf { st with queues := aset st.queues s.sid (queueOf st s ++ [.upd u.Update]) } s =
        queueOf st s ++ [.upd u.Update] :=
      queueOf_update_self st _ s
    rw [ih _ (by
      rw [hq1]
      simp only [List.length_append, List.length_singleton, List.length_cons,
        List.length_nil] at hfit ⊢
      omega)]
    rw [hq1]
    simp

/-- C7: when session c joins a document that currently holds exactly the
members a and b and whose update log holds [u1, u2] in arrival order, the
register + initial-state delivery enqueues u1 strictly before u2 onto c's
Send buffer (positions 0 and 1), and the event loop's processing of the
pending join announcement appends it to a's and b's buffers (and not to
c's). -/
theorem join_replays_log_in_order_and_announces
    (st : SMState) (a b c : Session) (log : List YjsUpdate) (u1 u2 : YjsUpdate)
    (hroom : alookup st.documents c.DocumentID = some [a, b])
    (hbc : st.broadcastCh = [])
    (hqc : alookup st.queues c.sid = none)
    (hcapa : (queueOf st a).length < sendQueueCap)
    (hcapb : (queueOf st b).length < sendQueueCap)
    (hca : c.sid ≠ a.sid) (hcb : c.sid ≠ b.sid) (hab : a.sid ≠ b.sid)
    (hlog : GetAllUpdates log c.DocumentID = [u1, u2]) :
    ∃ st1 st2 st3,
      handleRegister st c = some st1 ∧
      sendInitialState st1 log c = some st2 ∧
      stepBroadcast st2 = some (.ok st3) ∧
      (queueOf st3 c).take 2 = [.upd u1.Update, .upd u2.Update] ∧
      queueOf st3 a = queueOf st a ++ [.join c.UserID c.UserName] ∧
      queueOf st3 b = queueOf st b ++ [.join c.UserID c.UserName] := by
  have hca' : c ≠ a := fun hh => hca (hh ▸ rfl)
  have hcb' : c ≠ b := fun hh => hcb (hh ▸ rfl)
  have hcroom : c ∉ [a, b] := by simp [hca', hcb']
  -- step 1: register c
  obtain ⟨st1, h1, hd1, hq1st, hbc1, haw1⟩ :
      ∃ st1, handleRegister st c = some st1 ∧
        st1.documents = aset st.documents c.DocumentID [a, b, c] ∧
        st1.queues = st.queues ∧
        st1.broadcastCh =
          [{ DocumentID := c.DocumentID, Message := .join c.UserID c.UserName,
             Sender := some c }] ∧
        st1.awareness = st.awareness := by
    refine
      ⟨{ st with
          documents := aset st.documents c.DocumentID [a, b, c]
          broadcastCh :=
            [{ DocumentID := c.DocumentID, Message := .join c.UserID c.UserName,
               Sender := some c }] }, ?_, rfl, rfl, rfl, rfl⟩
    simp only [handleRegister, hroom, Option.getD_some]
    rw [if_neg hcroom, if_pos (by simp only [hbc]; decide)]
    simp [hbc]
  -- step 2: initial-state delivery to c
  have hq1 : queueOf st1 c = [] := by simp [queueOf, hq1st, hqc]
  have hqmid : queueOf (sendInitialUpdates st1 c [u1, u2]) c =
      [.upd u1.Update, .upd u2.Update] := by
    rw [sendInitialUpdates_queue_fits c [u1, u2] st1 (by
      rw [hq1]
      simp only [List.length_nil, List.length_cons, sendQueueCap]
      omega), hq1]
    simp
  obtain ⟨hdmid, hamid, hbmid⟩ := sendInitialUpdates_rest c [u1, u2] st1
  obtain ⟨st2, h2, hq2c, hq2frame, hd2, hbc2⟩ :
      ∃ st2, sendInitialState st1 log c = some st2 ∧
        (queueOf st2 c).take 2 = [.upd u1.Update, .upd u2.Update] ∧
        (∀ i, i ≠ c.sid → alookup st2.queues i = alookup st1.queues i) ∧
        st2.documents = st1.documents ∧ st2.broadcastCh = st1.broadcastCh := by
    simp only [sendInitialState, hlog]
    cases haw : GetAwareness (sendInitialUpdates st1 c [u1, u2]) c.DocumentID with
    | none =>
      refine ⟨_, rfl, ?_, ?_, hdmid, hbmid⟩
      · rw [hqmid]
        rfl
      · exact fun i hi => sendInitialUpdates_queues_ne c [u1, u2] st1 i hi
    | some aware =>
      have hlt : (queueOf (sendInitialUpdates st1 c [u1, u2]) c).length <
          sendQueueCap := by
        rw [hqmid]
        simp only [List.length_cons, List.length_nil, sendQueueCap]
        omega
      refine ⟨_, if_pos hlt, ?_, ?_, ?_, ?_⟩
      · rw [queueOf_update_self, hqmid]
        rfl
      · intro i hi
        have hfr := sendInitialUpdates_queues_ne c [u1, u2] st1 i hi
        have hic : ¬i = c.sid := hi
        show alookup (aset (sendInitialUpdates st1 c [u1, u2]).queues c.sid _) i = _
        rw [alookup_aset, if_neg hic]
        exact hfr
      · exact hdmid
      · exact hbmid
  -- step 3: the event loop delivers the pending join announcement
  have hroomst2 : alookup st2.documents c.DocumentID = some [a, b, c] := by
    rw [hd2, hd1, alookup_aset]
    simp
  have hq2a : queueOf st2 a = queueOf st a := by
    have := hq2frame a.sid (fun hh => hca hh.symm)
    simp [queueOf, this, hq1st]
  have hq2b : queueOf st2 b = queueOf st b := by
    have := hq2frame b.sid (fun hh => hcb hh.symm)
    simp [queueOf, this, hq1st]
  have hnodup3 : (([a, b, c]).map Session.sid).Nodup := by
    simp only [List.map_cons, List.map_nil, List.nodup_cons, List.mem_cons,
      List.mem_singleton, List.not_mem_nil]
    refine ⟨?_, ?_, ?_⟩
    · intro hh
      rcases hh with hh | hh | hh
      · exact hab hh
      · exact hca hh.symm
      · exact hh
    · intro hh
      rcases hh with hh | hh
      · exact hcb hh.symm
      · exact hh
    · simp
  have hsid3 : ∀ t ∈ [a, b, c], t ≠ c → t.sid ≠ c.sid := by
    intro t ht htc
    simp only [List.mem_cons, List.mem_singleton, List.not_mem_nil, or_false] at ht
    rcases ht with rfl | rfl | rfl
    · exact fun hh => hca hh.symm
    · exact fun hh => hcb hh.symm
    · exact absurd rfl htc
  have hcap3 : ∀ t ∈ [a, b, c], t ≠ c →
      (queueOf { st2 with broadcastCh := ([] : List BroadcastMessage) } t).length <
        sendQueueCap := by
    intro t ht htc
    simp only [List.mem_cons, List.mem_singleton, List.not_mem_nil, or_false] at ht
    rcases ht with rfl | rfl | rfl
    · show (queueOf st2 t).length < sendQueueCap
      rw [hq2a]; exact hcapa
    · show (queueOf st2 t).length < sendQueueCap
      rw [hq2b]; exact hcapb
    · exact absurd rfl htc
  obtain ⟨st3, hok, hdel, hframe, hd3, ha3, hb3, hc3⟩ :=
    broadcastLoop_ok
      { DocumentID := c.DocumentID, Message := .join c.UserID c.UserName,
        Sender := some c } c rfl [a, b, c]
      { st2 with broadcastCh := [] } hnodup3 hsid3 hcap3
  refine ⟨st1, st2, st3, h1, h2, ?_, ?_, ?_, ?_⟩
  · simp only [stepBroadcast, hbc2, hbc1]
    rw [handleBroadcast]
    show some (broadcastLoop _ _ ((alookup st2.documents c.DocumentID).getD [])) = _
    rw [hroomst2, Option.getD_some, hok]
  · have hq3c : alookup st3.queues c.sid =
        alookup st2.queues c.sid := hframe c.sid hsid3
    have : queueOf st3 c = queueOf st2 c := by simp [queueOf, hq3c]
    rw [this]
    exact hq2c
  · have := hdel a (by simp) (fun hh => hca' hh.symm)
    rw [this]
    show queueOf st2 a ++ _ = _
    rw [hq2a]
  · have := hdel b (by simp) (fun hh => hcb' hh.symm)
    rw [this]
    show queueOf st2 b ++ _ = _
    rw [hq2b]

/-- A two-member doc1 room with nothing pending, for the C7 witness. -/
def stABempty : SMState :=
  { documents := [("doc1", [sessA, sessB])]
    awareness := []
    queues := [], closed := [], broadcastCh := [] }

/-- First historical update of doc1 in the C7 witness log. -/
def uW1 : YjsUpdate := ⟨"doc1", [1], 11⟩

/-- Second historical update of doc1 in the C7 witness log. -/
def uW2 : YjsUpdate := ⟨"doc1", [2], 12⟩

/-- Witness for C7: sessC joins doc1 while A and B are present and the log
holds [uW1, uW2]. -/
theorem join_replays_log_in_order_and_announces_witness :
    alookup stABempty.documents sessC.DocumentID = some [sessA, sessB] ∧
    GetAllUpdates [uW1, uW2] sessC.DocumentID = [uW1, uW2] ∧
    (∃ st1 st2 st3,
      handleRegister stABempty sessC = some st1 ∧
      sendInitialState st1 [uW1, uW2] sessC = some st2 ∧
      stepBroadcast st2 = some (.ok st3) ∧
      (queueOf st3 sessC).take 2 = [.upd uW1.Update, .upd uW2.Update] ∧
      queueOf st3 sessA = queueOf stABempty sessA ++ [.join sessC.UserID sessC.UserName] ∧
      queueOf st3 sessB = queueOf stABempty sessB ++ [.join sessC.UserID sessC.UserName]) :=
  ⟨by decide, by decide,
    join_replays_log_in_order_and_announces stABempty sessA sessB sessC
      [uW1, uW2] uW1 uW2 (by decide) (by decide) (by decide) (by decide)
      (by decide) (by decide) (by decide) (by decide) (by decide)⟩

/-! ### C2: a saturated member blocks the broadcast instead of being evicted

handleBroadcast's `default` branch runs `sm.unregister <- session`.  The
`unregister` channel is unbuffered (`make(chan *Session)`) and its only
receiver is the `select` of the event-loop goroutine started in `Start` —
the very goroutine that is executing handleBroadcast.  An unbuffered send
completes only when another goroutine is ready to receive, so this send can
never complete: the broadcast blocks forever, members after the saturated
one in iteration order never receive the payload, and the saturated member
is never unregistered.  `BroadcastResult.blocked` embeds that outcome. -/

/-- A doc1 room of A and B in which A's Send buffer is at its 256-message
capacity. -/
def stFull : SMState :=
  { documents := [("doc1", [sessA, sessB])]
    awareness := []
    queues := [(1, List.replicate 256 (WireMsg.upd []))]
    closed := [], broadcastCh := [] }

/-- C2 failing-input evaluation: broadcasting to the room whose member A is
saturated makes handleBroadcast block in the self-send on the unregister
channel (it does not complete and does not evict asynchronously), the state
is left unchanged, and the other live member B has not received the
payload. -/
theorem broadcast_blocks_on_saturated_member :
    handleBroadcast stFull ⟨"doc1", .upd [7], some sessB⟩ = .blocked stFull sessA ∧
    queueOf stFull sessB = [] := by
  exact ⟨by decide, by decide⟩

/-! ### C8: the cleanup sweep deadlocks when two sessions are stale at once

`cleanup` runs on the sweeper goroutine with `sm.mu` held for its whole
body (`Lock` + deferred `Unlock`) and sends every stale session on the
unbuffered `sm.unregister` channel.  The receiver, the event loop, calls
`handleUnregister`, whose first statement is `sm.mu.Lock()`.  The joint
behaviour is embedded as a small transition system: a send can hand a
session to the loop only while the loop sits at its `select`; the loop can
finish a `handleUnregister` only once the sweeper has returned and released
`sm.mu`; the sweeper returns only once it has sent every stale session. -/

/-- 5-minute inactivity timeout of `cleanup`, in seconds. -/
def cleanupTimeout : Nat := 300

/-- 30-second tick of `cleanupLoop`, in seconds. -/
def cleanupInterval : Nat := 30

/-- The stale-session scan of `cleanup`: every member of every room whose
last activity lies more than `cleanupTimeout` before `now`.  (Nat
subtraction agrees with Go's signed `time.Since` comparison: a session with
activity in the future is not stale either way.) -/
def staleSessions (st : SMState) (now : Nat) : List Session :=
  (st.documents.map Prod.snd).flatten.filter
    (fun s => decide (cleanupTimeout < now - s.LastActiveAt))

/-- Joint configuration of the sweeper (inside `cleanup`, holding `sm.mu`)
and the event loop, around the unbuffered `unregister` channel. -/
structure SweepConfig where
  pending : List Session
  cleanupDone : Bool
  loopBlocked : Option Session
  evicted : List Session
deriving DecidableEq, Repr

/-- All configurations reachable in one step: (1) the rendezvous of
`sm.unregister <- session` with the event loop's `select`, possible only
while the loop is not stuck inside `handleUnregister`; (2) `cleanup`
returning and releasing `sm.mu` once every stale session has been sent;
(3) `handleUnregister` acquiring `sm.mu` — hence completing, and the loop
returning to its `select` — possible only after (2). -/
def sweepNext (c : SweepConfig) : List SweepConfig :=
  (match c.pending, c.loopBlocked with
    | s :: rest, none => [{ c with pending := rest, loopBlocked := some s }]
    | _, _ => []) ++
  (if c.pending = [] ∧ c.cleanupDone = false then
    [{ c with cleanupDone := true }] else []) ++
  (match c.loopBlocked, c.cleanupDone with
    | some s, true => [{ c with loopBlocked := none, evicted := c.evicted ++ [s] }]
    | _, _ => [])

/-- C8 failing-input evaluation: at time 1000 both members of doc1 are
stale (idle since 0, timeout 300).  The sweep hands the first stale session
to the event loop; in the resulting configuration no transition is enabled —
`cleanup` still holds `sm.mu` and wants to send the second session, the
event loop is blocked on `sm.mu` inside `handleUnregister` — so the sweep
never completes and no session is ever evicted, contradicting eviction
within one sweep interval. -/
theorem cleanup_deadlocks_with_two_stale_sessions :
    staleSessions stABempty 1000 = [sessA, sessB] ∧
    sweepNext { pending := [sessA, sessB], cleanupDone := false,
                loopBlocked := none, evicted := [] } =
      [{ pending := [sessB], cleanupDone := false,
         loopBlocked := some sessA, evicted := [] }] ∧
    sweepNext { pending := [sessB], cleanupDone := false,
                loopBlocked := some sessA, evicted := [] } = [] ∧
    ({ pending := [sessB], cleanupDone := false,
       loopBlocked := some sessA, evicted := [] } : SweepConfig).evicted = [] := by
  exact ⟨by decide, by decide, by decide, by decide⟩

end AiKms
